import Mathlib

/-!
Verification of the chemical-risk scoring engine (AI_engine).

The definitions below are a shallow embedding of the Python sources:
`utils/processor.py`, `rules/toxicite.py`, `rules/inflammabilite.py`,
`rules/incompatibilites.py`, `Scoring/risk_score.py`,
`utils/environmental_factors.py` and `services/analyzer.py`.
Scores are modelled over `ℚ` (Python floats carry exact decimal constants
here), strings as `List Char`, and Python's `None` as `Option`.
-/

/-! ## Text normalisation (utils/processor.py)

`normalize_text` lower-cases, strips accents via NFD decomposition plus
removal of the nonspacing-mark (Mn) characters, collapses whitespace runs
to a single space, and strips leading/trailing whitespace.  The character
tables below model Python's `str.lower` and `unicodedata.normalize('NFD')`
on the Latin repertoire this engine manipulates; characters outside the
tables are fixed points, as they are for the French chemical vocabulary
of the data set. -/

/-- Association-list lookup on characters. -/
def tlook {α : Type} : List (Char × α) → Char → Option α
  | [], _ => none
  | (k, v) :: rest, c => if c = k then some v else tlook rest c

/-- Case-mapping table for `str.lower`: ASCII letters and the accented
uppercase letters of the French repertoire. -/
def lowerTable : List (Char × Char) :=
  [('A', 'a'), ('B', 'b'), ('C', 'c'), ('D', 'd'), ('E', 'e'), ('F', 'f'),
   ('G', 'g'), ('H', 'h'), ('I', 'i'), ('J', 'j'), ('K', 'k'), ('L', 'l'),
   ('M', 'm'), ('N', 'n'), ('O', 'o'), ('P', 'p'), ('Q', 'q'), ('R', 'r'),
   ('S', 's'), ('T', 't'), ('U', 'u'), ('V', 'v'), ('W', 'w'), ('X', 'x'),
   ('Y', 'y'), ('Z', 'z'),
   ('À', 'à'), ('Â', 'â'), ('Ä', 'ä'), ('Ç', 'ç'), ('É', 'é'), ('È', 'è'),
   ('Ê', 'ê'), ('Ë', 'ë'), ('Î', 'î'), ('Ï', 'ï'), ('Ô', 'ô'), ('Ö', 'ö'),
   ('Ù', 'ù'), ('Û', 'û'), ('Ü', 'ü')]

/-- Model of Python `str.lower` on one character. -/
def lowerM (c : Char) : Char := (tlook lowerTable c).getD c

/-- The nonspacing combining marks (Unicode category Mn) produced by the
decompositions in `nfdTable`. -/
def mnMarks : List Char := ['̀', '́', '̂', '̈', '̧']

/-- Model of `unicodedata.category c == Mn`. -/
def isMnC (c : Char) : Bool := decide (c ∈ mnMarks)

/-- NFD decomposition table for the accented Latin letters used by the
engine: each accented letter decomposes to its base letter followed by a
combining mark. -/
def nfdTable : List (Char × List Char) :=
  [('à', ['a', '̀']), ('â', ['a', '̂']), ('ä', ['a', '̈']),
   ('ç', ['c', '̧']), ('é', ['e', '́']), ('è', ['e', '̀']),
   ('ê', ['e', '̂']), ('ë', ['e', '̈']), ('î', ['i', '̂']),
   ('ï', ['i', '̈']), ('ô', ['o', '̂']), ('ö', ['o', '̈']),
   ('ù', ['u', '̀']), ('û', ['u', '̂']), ('ü', ['u', '̈']),
   ('À', ['A', '̀']), ('Â', ['A', '̂']), ('Ä', ['A', '̈']),
   ('Ç', ['C', '̧']), ('É', ['E', '́']), ('È', ['E', '̀']),
   ('Ê', ['E', '̂']), ('Ë', ['E', '̈']), ('Î', ['I', '̂']),
   ('Ï', ['I', '̈']), ('Ô', ['O', '̂']), ('Ö', ['O', '̈']),
   ('Ù', ['U', '̀']), ('Û', ['U', '̂']), ('Ü', ['U', '̈'])]

/-- Per-character NFD decomposition. -/
def nfdDecompose (c : Char) : List Char := (tlook nfdTable c).getD [c]

/-- Embeds `remove_accents`: NFD decomposition of the whole string, then
removal of every category-Mn character. -/
def remove_accents (l : List Char) : List Char :=
  (l.flatMap nfdDecompose).filter (fun c => !(isMnC c))

/-- The whitespace class of the regex `\s` and of `str.strip`. -/
def isSpaceM (c : Char) : Bool :=
  decide (c ∈ [' ', '\t', '\n', '\r', '\x0b', '\x0c'])

/-- Worker for the substitution `re.sub(r'\s+', ' ', text)`: the flag
records whether the previous character was whitespace (in which case
further whitespace is dropped rather than emitted). -/
def collapseAux : Bool → List Char → List Char
  | _, [] => []
  | prevSpace, c :: rest =>
    if isSpaceM c then
      if prevSpace then collapseAux true rest
      else ' ' :: collapseAux true rest
    else c :: collapseAux false rest

/-- Embeds `re.sub(r'\s+', ' ', text)`. -/
def collapseWs (l : List Char) : List Char := collapseAux false l

/-- Removal of trailing whitespace, the right half of `str.strip`. -/
def trimRight : List Char → List Char
  | [] => []
  | c :: rest =>
    match trimRight rest with
    | [] => if isSpaceM c then [] else [c]
    | r => c :: r

/-- Embeds `normalize_text`: lower-case, strip accents, collapse
whitespace runs, strip both ends. -/
def normalize_text (l : List Char) : List Char :=
  trimRight (List.dropWhile isSpaceM (collapseWs (remove_accents (l.map lowerM))))

/-- Case-mapping table for `str.upper` on the characters a normalised
string can contain (accents are already stripped when the engine calls
`.upper()`). -/
def upperTable : List (Char × Char) :=
  [('a', 'A'), ('b', 'B'), ('c', 'C'), ('d', 'D'), ('e', 'E'), ('f', 'F'),
   ('g', 'G'), ('h', 'H'), ('i', 'I'), ('j', 'J'), ('k', 'K'), ('l', 'L'),
   ('m', 'M'), ('n', 'N'), ('o', 'O'), ('p', 'P'), ('q', 'Q'), ('r', 'R'),
   ('s', 'S'), ('t', 'T'), ('u', 'U'), ('v', 'V'), ('w', 'W'), ('x', 'X'),
   ('y', 'Y'), ('z', 'Z')]

/-- Model of Python `str.upper` on one character. -/
def upperM (c : Char) : Char := (tlook upperTable c).getD c

/-- Does `pat` match at the head of `s`? -/
def leadsWith : List Char → List Char → Bool
  | [], _ => true
  | _ :: _, [] => false
  | p :: ps, c :: cs => (p == c) && leadsWith ps cs

/-- Embeds Python's substring test `pat in s`. -/
def hasSub (pat : List Char) : List Char → Bool
  | [] => pat.isEmpty
  | s@(_ :: cs) => leadsWith pat s || hasSub pat cs

/-- Model of Python `str.isalnum` on the engine's character repertoire. -/
def isAlnumM (c : Char) : Bool := c.isAlpha || c.isDigit

/-- Embeds `clean_input` (normalisation only). -/
def clean_input (l : List Char) : List Char := normalize_text l

/-- Embeds `is_valid_chemical_name`: after cleaning, the name must contain
at least two alphanumeric characters.  An empty name is rejected by the
leading falsiness test, which coincides with the count being zero. -/
def is_valid_chemical_name (name : List Char) : Bool :=
  let cleaned := clean_input name
  decide (2 ≤ (cleaned.filter isAlnumM).length)

/-! ## Toxicity evaluator (rules/toxicite.py, config/settings.py) -/

/-- The six canonical toxicity levels of `TOXICITY_SCORES`, in the
dictionary's insertion order. -/
inductive ToxLevel
  | TRES_TOXIQUE
  | TOXIQUE
  | NOCIF
  | IRRITANT
  | PEU_TOXIQUE
  | NON_TOXIQUE
deriving DecidableEq, Repr

/-- Embeds `TOXICITY_SCORES` from config/settings.py. -/
def TOXICITY_SCORES : ToxLevel → ℚ
  | .TRES_TOXIQUE => 95
  | .TOXIQUE => 70
  | .NOCIF => 45
  | .IRRITANT => 25
  | .PEU_TOXIQUE => 10
  | .NON_TOXIQUE => 0

/-- Embeds `DEFAULT_TOXICITY_LEVEL = "NOCIF"`. -/
def DEFAULT_TOXICITY_LEVEL : ToxLevel := .NOCIF

/-- The keys of `TOXICITY_SCORES` in iteration order. -/
def toxLevelKeys : List ToxLevel :=
  [.TRES_TOXIQUE, .TOXIQUE, .NOCIF, .IRRITANT, .PEU_TOXIQUE, .NON_TOXIQUE]

/-- The canonical level names as strings. -/
def toxLevelName : ToxLevel → List Char
  | .TRES_TOXIQUE => "TRES_TOXIQUE".toList
  | .TOXIQUE => "TOXIQUE".toList
  | .NOCIF => "NOCIF".toList
  | .IRRITANT => "IRRITANT".toList
  | .PEU_TOXIQUE => "PEU_TOXIQUE".toList
  | .NON_TOXIQUE => "NON_TOXIQUE".toList

/-- Embeds `normalize_text(x).upper().replace(' ', '_')` as used on both
the label and the level names in `evaluate_toxicity`. -/
def toxNormalize (l : List Char) : List Char :=
  ((normalize_text l).map upperM).map (fun c => if c = ' ' then '_' else c)

/-- The first matching loop of `evaluate_toxicity`: the normalised label
matches a level when it equals the normalised level name or is a
substring of it. -/
def toxExactLoop (tn : List Char) : List ToxLevel → Option ToxLevel
  | [] => none
  | k :: rest =>
    let kn := toxNormalize (toxLevelName k)
    if (tn == kn) || hasSub tn kn then some k else toxExactLoop tn rest

/-- Embeds `fuzzy_mappings` from `_fuzzy_match_toxicity`, in source
order. -/
def fuzzy_mappings : List (ToxLevel × List (List Char)) :=
  [(.NON_TOXIQUE, ["NONTOXIQUE".toList, "NON_TOXIQUE".toList,
                   "AUCUNE".toList, "AUCUN".toList, "NULLE".toList]),
   (.PEU_TOXIQUE, ["PEUTOXIQUE".toList, "PEU_TOXIQUE".toList,
                   "FAIBLE".toList, "FAIBLETOXICITE".toList]),
   (.IRRITANT, ["IRRITANT".toList, "IRRITATION".toList]),
   (.NOCIF, ["NOCIF".toList, "NUISIBLE".toList,
             "TOXICITEMODERE".toList, "MODEREE".toList]),
   (.TOXIQUE, ["TOXIQUE".toList, "CORROSIF".toList,
               "TOXICITEELEVEE".toList]),
   (.TRES_TOXIQUE, ["TRES_TOXIQUE".toList, "TRESTOXIQUE".toList,
                    "CMR".toList, "CANCEROGENE".toList,
                    "MUTAGENE".toList, "REPROTOXIQUE".toList])]

/-- First fuzzy pass: exact membership of the label among the variants. -/
def fuzzyExactPass (tn : List Char) :
    List (ToxLevel × List (List Char)) → Option ToxLevel
  | [] => none
  | (lv, vs) :: rest =>
    if vs.any (fun v => v == tn) then some lv else fuzzyExactPass tn rest

/-- Second fuzzy pass: a variant longer than two characters contained in
the label. -/
def fuzzySubPass (tn : List Char) :
    List (ToxLevel × List (List Char)) → Option ToxLevel
  | [] => none
  | (lv, vs) :: rest =>
    if vs.any (fun v => decide (2 < v.length) && hasSub v tn) then some lv
    else fuzzySubPass tn rest

/-- Embeds `_fuzzy_match_toxicity`. -/
def fuzzy_match_toxicity (tn : List Char) : Option ToxLevel :=
  match fuzzyExactPass tn fuzzy_mappings with
  | some lv => some lv
  | none => fuzzySubPass tn fuzzy_mappings

/-- Result of `evaluate_toxicity`; `defaultApplied` models the
explication marking the precautionary default. -/
structure ToxResult where
  score : ℚ
  niveau : ToxLevel
  defaultApplied : Bool
deriving DecidableEq, Repr

/-- Embeds `evaluate_toxicity` from rules/toxicite.py; the substance's
toxicity label is `none` when absent, and an empty string falls into the
same falsiness branch. -/
def evaluate_toxicity (toxicite : Option (List Char)) : ToxResult :=
  match toxicite with
  | none =>
    ⟨TOXICITY_SCORES DEFAULT_TOXICITY_LEVEL, DEFAULT_TOXICITY_LEVEL, true⟩
  | some lbl =>
    if lbl.isEmpty then
      ⟨TOXICITY_SCORES DEFAULT_TOXICITY_LEVEL, DEFAULT_TOXICITY_LEVEL, true⟩
    else
      let tn := toxNormalize lbl
      match toxExactLoop tn toxLevelKeys with
      | some lv => ⟨TOXICITY_SCORES lv, lv, false⟩
      | none =>
        match fuzzy_match_toxicity tn with
        | some lv => ⟨TOXICITY_SCORES lv, lv, false⟩
        | none =>
          ⟨TOXICITY_SCORES DEFAULT_TOXICITY_LEVEL, DEFAULT_TOXICITY_LEVEL,
           true⟩

/-! ## Flammability evaluator (rules/inflammabilite.py, config/settings.py) -/

/-- The flammability classes. -/
inductive InflamLevel
  | TRES_INFLAMMABLE
  | INFLAMMABLE
  | PEU_INFLAMMABLE
  | NON_INFLAMMABLE
deriving DecidableEq, Repr

/-- Embeds `INFLAMMABILITY_SCORES` from config/settings.py. -/
def INFLAMMABILITY_SCORES : InflamLevel → ℚ
  | .TRES_INFLAMMABLE => 90
  | .INFLAMMABLE => 60
  | .PEU_INFLAMMABLE => 20
  | .NON_INFLAMMABLE => 0

/-- A substance's flash point: absent (`None`), present but not
convertible by `float(...)`, or a numeric value in °C. -/
inductive FlashPoint
  | absent
  | invalid
  | val (q : ℚ)
deriving DecidableEq, Repr

/-- Embeds `classify_by_flash_point`, with the thresholds
`FLASH_POINT_THRESHOLDS` = {TRES_INFLAMMABLE: 23, INFLAMMABLE: 60,
PEU_INFLAMMABLE: 100} from config/settings.py. -/
def classify_by_flash_point : FlashPoint → InflamLevel
  | .absent => .NON_INFLAMMABLE
  | .invalid => .NON_INFLAMMABLE
  | .val q =>
    if q < 23 then .TRES_INFLAMMABLE
    else if q < 60 then .INFLAMMABLE
    else if q < 100 then .PEU_INFLAMMABLE
    else .NON_INFLAMMABLE

/-- Embeds `evaluate_inflammability` (score and class; the explication
string is not modelled).  The rule chain is the one written out in the
source, which coincides with `classify_by_flash_point`. -/
def evaluate_inflammability (point_eclair : FlashPoint) : ℚ × InflamLevel :=
  match point_eclair with
  | .absent => (INFLAMMABILITY_SCORES .NON_INFLAMMABLE, .NON_INFLAMMABLE)
  | .invalid => (INFLAMMABILITY_SCORES .NON_INFLAMMABLE, .NON_INFLAMMABLE)
  | .val q =>
    if q < 23 then (INFLAMMABILITY_SCORES .TRES_INFLAMMABLE, .TRES_INFLAMMABLE)
    else if q < 60 then (INFLAMMABILITY_SCORES .INFLAMMABLE, .INFLAMMABLE)
    else if q < 100 then (INFLAMMABILITY_SCORES .PEU_INFLAMMABLE, .PEU_INFLAMMABLE)
    else (INFLAMMABILITY_SCORES .NON_INFLAMMABLE, .NON_INFLAMMABLE)

/-! ## Incompatibility scoring (rules/incompatibilites.py,
config/settings.py) -/

/-- Embeds `INCOMPATIBILITY_BASE_SCORE = 30`. -/
def INCOMPATIBILITY_BASE_SCORE : ℚ := 30

/-- Embeds `MAX_INCOMPATIBILITY_SCORE = 100`. -/
def MAX_INCOMPATIBILITY_SCORE : ℚ := 100

/-- Embeds `SEVERE_INCOMPATIBILITY_MULTIPLIER = 2.0`. -/
def SEVERE_INCOMPATIBILITY_MULTIPLIER : ℚ := 2

/-- Embeds `_calculate_incompatibility_score`: the risk level is
normalised and upper-cased, then matched by substring containment; the
`int(...)` conversions of the source are omitted because every product is
already integral. -/
def calculate_incompatibility_score (niveau_risque : List Char) : ℚ :=
  let n := (normalize_text niveau_risque).map upperM
  if hasSub "SEVERE".toList n || hasSub "CRITIQUE".toList n then
    min (INCOMPATIBILITY_BASE_SCORE * SEVERE_INCOMPATIBILITY_MULTIPLIER * (3/2))
      MAX_INCOMPATIBILITY_SCORE
  else if hasSub "ELEVE".toList n || hasSub "ELEVEE".toList n
      || hasSub "HAUT".toList n then
    min (INCOMPATIBILITY_BASE_SCORE * SEVERE_INCOMPATIBILITY_MULTIPLIER)
      MAX_INCOMPATIBILITY_SCORE
  else if hasSub "MOYEN".toList n || hasSub "MOYENNE".toList n
      || hasSub "MODERE".toList n then
    INCOMPATIBILITY_BASE_SCORE
  else if hasSub "FAIBLE".toList n || hasSub "BAS".toList n then
    INCOMPATIBILITY_BASE_SCORE * (1/2)
  else
    INCOMPATIBILITY_BASE_SCORE

/-! ## Score aggregation (Scoring/risk_score.py, config/settings.py) -/

/-- The three-tier qualitative risk level. -/
inductive RiskLevel
  | FAIBLE
  | MOYEN
  | ELEVE
deriving DecidableEq, Repr

/-- Embeds `RISK_LEVEL_THRESHOLDS["MOYEN"] = 40`. -/
def RISK_LEVEL_THRESHOLDS_MOYEN : ℚ := 40

/-- Embeds `RISK_LEVEL_THRESHOLDS["ELEVE"] = 70`. -/
def RISK_LEVEL_THRESHOLDS_ELEVE : ℚ := 70

/-- Embeds `_determine_risk_level` (and `get_risk_level_only`, its sole
caller for the final score). -/
def determine_risk_level (global_score : ℚ) : RiskLevel :=
  if RISK_LEVEL_THRESHOLDS_ELEVE ≤ global_score then .ELEVE
  else if RISK_LEVEL_THRESHOLDS_MOYEN ≤ global_score then .MOYEN
  else .FAIBLE

/-- Embeds `get_risk_level_only`. -/
def get_risk_level_only (global_score : ℚ) : RiskLevel :=
  determine_risk_level global_score

/-- Embeds the `score_global` field computed by
`calculate_global_risk_score`: each category score is capped at 100, the
dangerous-reaction override locks incompatibility at 50 and boosts
toxicity to at least 40, then the `HSE_WEIGHTS` weighted sum
(0.20/0.35/0.45) is capped at 100. -/
def calculate_global_risk_score
    (inflammabilite toxicite incompatibilites : ℚ)
    (is_dangerous_reaction_detected : Bool) : ℚ :=
  let inflammabilite := min 100 inflammabilite
  let toxicite := min 100 toxicite
  let incompatibilite := min 100 incompatibilites
  let incompatibilite :=
    if is_dangerous_reaction_detected then 50 else incompatibilite
  let toxicite :=
    if is_dangerous_reaction_detected then max toxicite 40 else toxicite
  let base_score :=
    inflammabilite * (20/100) + toxicite * (35/100)
      + incompatibilite * (45/100)
  min 100 base_score

/-! ## Environmental adjustment (utils/environmental_factors.py) -/

/-- Python's built-in `round` to an integer: round half to even. -/
def pyRound (q : ℚ) : ℤ :=
  let f : ℤ := ⌊q⌋
  let frac : ℚ := q - (f : ℚ)
  if frac < 1/2 then f
  else if (1/2 : ℚ) < frac then f + 1
  else if f % 2 = 0 then f else f + 1

/-- Embeds `apply_environmental_adjustments`: three multiplicative
factors (temperature, humidity, ventilation) applied to the base score,
then `max` with the safety threshold (100 for a dangerous reaction, else
0), returned rounded. -/
def apply_environmental_adjustments
    (base_score temperature_c humidity_percent : ℚ)
    (ventilation is_dangerous_reaction : Bool) : ℤ :=
  let min_safety_threshold : ℚ := if is_dangerous_reaction then 100 else 0
  let temp_multiplier : ℚ :=
    if temperature_c < 20 then 70/100
    else if temperature_c ≤ 30 then 1
    else if temperature_c ≤ 50 then 1 + (temperature_c - 30) * (2/100)
    else 140/100 + (temperature_c - 50) * (4/100)
  let adjusted_score := base_score * temp_multiplier
  let humidity_multiplier : ℚ :=
    if humidity_percent < 20 then 95/100
    else if humidity_percent ≤ 40 then 98/100
    else if humidity_percent ≤ 60 then 1
    else if humidity_percent ≤ 80 then 102/100
    else 105/100
  let adjusted_score := adjusted_score * humidity_multiplier
  let ventilation_multiplier : ℚ := if ventilation then 85/100 else 1
  let adjusted_score := adjusted_score * ventilation_multiplier
  let final_score := max adjusted_score min_safety_threshold
  pyRound final_score

/-! ## Orchestration (services/analyzer.py) -/

/-- The laboratory context of a request (`contexte_labo`): every reading
is optional; a missing ventilation entry is falsy in the source. -/
structure LabContext where
  temperature_c : Option ℚ
  humidite_percent : Option ℚ
  ventilation : Option Bool
deriving DecidableEq, Repr

/-- Embeds steps 7 to 8 of `analyze_risk`: aggregation of the three
category scores, then the multiplicative environmental adjustment, which
runs only when both temperature and humidity are supplied, and finally
the risk level derived from the final score by `get_risk_level_only`. -/
def analyze_scoring (inflam tox incomp : ℚ) (dangerous : Bool)
    (ctx : LabContext) : ℚ × RiskLevel :=
  let base_score := calculate_global_risk_score inflam tox incomp dangerous
  let final_score : ℚ :=
    match ctx.temperature_c, ctx.humidite_percent with
    | some temperature, some humidity =>
      ((apply_environmental_adjustments base_score temperature humidity
        (ctx.ventilation.getD false) dangerous : ℤ) : ℚ)
    | _, _ => base_score
  (final_score, get_risk_level_only final_score)

/-- The `substances` field of the request: absent, present but not a
list, or a list of names. -/
inductive SubstancesField
  | missing
  | notAList
  | items (l : List (List Char))
deriving DecidableEq, Repr

/-- The request shape validated by `_validate_input`. -/
structure InputData where
  substances : SubstancesField
deriving DecidableEq, Repr

/-- The validation error messages of `_validate_input`, as tags. -/
inductive ValidationError
  | substancesRequired
  | substancesMustBeList
  | substancesEmpty
  | tooManySubstances
  | invalidName (name : List Char)
deriving DecidableEq, Repr

/-- Embeds `_validate_input`: the early-return checks (missing field,
not a list, empty list), then the 10-substance limit followed by the
per-name validity check, both accumulated. -/
def validate_input (d : InputData) : List ValidationError :=
  match d.substances with
  | .missing => [.substancesRequired]
  | .notAList => [.substancesMustBeList]
  | .items l =>
    if l.isEmpty then [.substancesEmpty]
    else
      (if decide (10 < l.length) then [.tooManySubstances] else [])
        ++ (l.filter (fun n => !(is_valid_chemical_name n))).map .invalidName

/-- The outcome of `analyze_risk` restricted to the fields the claims
are about; on a validation failure `success` is set to `False`, the
errors are recorded and the remaining fields keep their initial values. -/
structure AnalysisResult where
  success : Bool
  score_global : ℚ
  niveau_risque : RiskLevel
  erreurs : List ValidationError
deriving DecidableEq, Repr

/-- Embeds step 1 of `analyze_risk`: validation short-circuits to a
failure result; otherwise the rest of the pipeline (database loading,
per-substance evaluators, aggregation, environment), abstracted here as
`pipeline`, produces the score and level. -/
def analyze_risk (d : InputData)
    (pipeline : List (List Char) → ℚ × RiskLevel) : AnalysisResult :=
  let validation_errors := validate_input d
  if validation_errors.isEmpty then
    match d.substances with
    | .items l =>
      let r := pipeline l
      { success := true, score_global := r.1, niveau_risque := r.2,
        erreurs := [] }
    | _ =>
      { success := false, score_global := 0, niveau_risque := .FAIBLE,
        erreurs := validation_errors }
  else
    { success := false, score_global := 0, niveau_risque := .FAIBLE,
      erreurs := validation_errors }

/-! ## Claims -/

/-- C3: for every triple of category scores and every value of the
dangerous-reaction flag, the aggregator first applies the override when
the flag is set (incompatibility forced to exactly 50, toxicity raised to
`max toxicity 40`), then returns the weighted sum
flammability×0.20 + toxicity×0.35 + incompatibility×0.45 capped at 100;
when the flag is not set the scores are used as given, capped at 100
each. -/
theorem C3_aggregator_override_and_weights (f t i : ℚ) :
    calculate_global_risk_score f t i true
      = min 100 ((min 100 f) * (20/100) + (min 100 (max t 40)) * (35/100)
          + 50 * (45/100))
    ∧ calculate_global_risk_score f t i false
      = min 100 ((min 100 f) * (20/100) + (min 100 t) * (35/100)
          + (min 100 i) * (45/100)) := by
  have h : min (100:ℚ) (max t 40) = max (min 100 t) 40 := by
    rw [min_max_distrib_left]
    norm_num
  constructor
  · simp [calculate_global_risk_score, h]
  · simp [calculate_global_risk_score]

/-- C7: the qualitative risk level reported by the scoring pipeline
partitions the score space with thresholds 40 and 70: below 40 FAIBLE,
from 40 up to (but excluding) 70 MOYEN, from 70 on ELEVE; in particular
39.9→FAIBLE, 40.0→MOYEN, 69.9→MOYEN, 70.0→ELEVE, and `analyze_scoring`
derives its level from its final score through `get_risk_level_only`. -/
theorem C7_risk_level_thresholds (s f t i : ℚ) (d : Bool) (ctx : LabContext) :
    (s < 40 → determine_risk_level s = .FAIBLE)
    ∧ (40 ≤ s → s < 70 → determine_risk_level s = .MOYEN)
    ∧ (70 ≤ s → determine_risk_level s = .ELEVE)
    ∧ determine_risk_level (399/10) = .FAIBLE
    ∧ determine_risk_level 40 = .MOYEN
    ∧ determine_risk_level (699/10) = .MOYEN
    ∧ determine_risk_level 70 = .ELEVE
    ∧ (analyze_scoring f t i d ctx).2
        = get_risk_level_only (analyze_scoring f t i d ctx).1 := by
  have hlo : ∀ x : ℚ, x < 40 → determine_risk_level x = .FAIBLE := by
    intro x hx
    simp only [determine_risk_level, RISK_LEVEL_THRESHOLDS_ELEVE,
      RISK_LEVEL_THRESHOLDS_MOYEN]
    rw [if_neg (by linarith), if_neg (by linarith)]
  have hmid : ∀ x : ℚ, 40 ≤ x → x < 70 → determine_risk_level x = .MOYEN := by
    intro x hx1 hx2
    simp only [determine_risk_level, RISK_LEVEL_THRESHOLDS_ELEVE,
      RISK_LEVEL_THRESHOLDS_MOYEN]
    rw [if_neg (by linarith), if_pos hx1]
  have hhi : ∀ x : ℚ, 70 ≤ x → determine_risk_level x = .ELEVE := by
    intro x hx
    simp only [determine_risk_level, RISK_LEVEL_THRESHOLDS_ELEVE,
      RISK_LEVEL_THRESHOLDS_MOYEN]
    rw [if_pos hx]
  refine ⟨hlo s, hmid s, hhi s, hlo _ (by norm_num), hmid _ (by norm_num)
    (by norm_num), hmid _ (by norm_num) (by norm_num), hhi _ (by norm_num), ?_⟩
  simp only [analyze_scoring]

/-- C7 witness at score 40 (the MOYEN boundary). -/
theorem C7_risk_level_thresholds_witness : determine_risk_level 40 = .MOYEN :=
  ((C7_risk_level_thresholds 40 0 0 0 false
    ⟨none, none, none⟩).2.1) (by norm_num) (by norm_num)

/-- C6: the flammability classification satisfies the boundary table
(< 23 → VERY_FLAMMABLE 90; 23 ≤ · < 60 → FLAMMABLE 60;
60 ≤ · < 100 → SLIGHTLY_FLAMMABLE 20; ≥ 100 → NON_FLAMMABLE 0;
absent or unparsable → NON_FLAMMABLE 0), in particular at 22.99, 23.0,
59.99, 60.0, 99.99 and 100.0, and `evaluate_inflammability` is a total
function agreeing with `classify_by_flash_point`. -/
theorem C6_flash_point_boundaries (q : ℚ) :
    (q < 23 → evaluate_inflammability (.val q) = (90, .TRES_INFLAMMABLE))
    ∧ (23 ≤ q → q < 60 → evaluate_inflammability (.val q) = (60, .INFLAMMABLE))
    ∧ (60 ≤ q → q < 100 →
        evaluate_inflammability (.val q) = (20, .PEU_INFLAMMABLE))
    ∧ (100 ≤ q → evaluate_inflammability (.val q) = (0, .NON_INFLAMMABLE))
    ∧ evaluate_inflammability .absent = (0, .NON_INFLAMMABLE)
    ∧ evaluate_inflammability .invalid = (0, .NON_INFLAMMABLE)
    ∧ evaluate_inflammability (.val (2299/100)) = (90, .TRES_INFLAMMABLE)
    ∧ evaluate_inflammability (.val 23) = (60, .INFLAMMABLE)
    ∧ evaluate_inflammability (.val (5999/100)) = (60, .INFLAMMABLE)
    ∧ evaluate_inflammability (.val 60) = (20, .PEU_INFLAMMABLE)
    ∧ evaluate_inflammability (.val (9999/100)) = (20, .PEU_INFLAMMABLE)
    ∧ evaluate_inflammability (.val 100) = (0, .NON_INFLAMMABLE)
    ∧ (∀ fp : FlashPoint,
        (evaluate_inflammability fp).2 = classify_by_flash_point fp) := by
  have h1 : ∀ x : ℚ, x < 23 →
      evaluate_inflammability (.val x) = (90, .TRES_INFLAMMABLE) := by
    intro x hx
    simp only [evaluate_inflammability, INFLAMMABILITY_SCORES]
    rw [if_pos hx]
  have h2 : ∀ x : ℚ, 23 ≤ x → x < 60 →
      evaluate_inflammability (.val x) = (60, .INFLAMMABLE) := by
    intro x hx1 hx2
    simp only [evaluate_inflammability, INFLAMMABILITY_SCORES]
    rw [if_neg (by linarith), if_pos hx2]
  have h3 : ∀ x : ℚ, 60 ≤ x → x < 100 →
      evaluate_inflammability (.val x) = (20, .PEU_INFLAMMABLE) := by
    intro x hx1 hx2
    simp only [evaluate_inflammability, INFLAMMABILITY_SCORES]
    rw [if_neg (by linarith), if_neg (by linarith), if_pos hx2]
  have h4 : ∀ x : ℚ, 100 ≤ x →
      evaluate_inflammability (.val x) = (0, .NON_INFLAMMABLE) := by
    intro x hx
    simp only [evaluate_inflammability, INFLAMMABILITY_SCORES]
    rw [if_neg (by linarith), if_neg (by linarith), if_neg (by linarith)]
  refine ⟨h1 q, h2 q, h3 q, h4 q, rfl, rfl,
    h1 _ (by norm_num), h2 _ (by norm_num) (by norm_num),
    h2 _ (by norm_num) (by norm_num), h3 _ (by norm_num) (by norm_num),
    h3 _ (by norm_num) (by norm_num), h4 _ (by norm_num), ?_⟩
  intro fp
  match fp with
  | .absent => rfl
  | .invalid => rfl
  | .val x =>
    simp only [evaluate_inflammability, classify_by_flash_point,
      INFLAMMABILITY_SCORES]
    split_ifs <;> rfl

/-- C6 witness at the 23 °C and 60 °C boundaries. -/
theorem C6_flash_point_boundaries_witness :
    evaluate_inflammability (.val 23) = (60, .INFLAMMABLE)
    ∧ evaluate_inflammability (.val 60) = (20, .PEU_INFLAMMABLE) :=
  ⟨(C6_flash_point_boundaries 23).2.1 (by norm_num) (by norm_num),
   (C6_flash_point_boundaries 60).2.2.1 (by norm_num) (by norm_num)⟩

/-- If a pattern matches at the head of `s`, so does any of its
prefixes. -/
theorem leadsWith_of_append (p q s : List Char) :
    leadsWith (p ++ q) s = true → leadsWith p s = true := by
  induction p generalizing s with
  | nil => intro _; rfl
  | cons a ps ih =>
    cases s with
    | nil => intro h; exact absurd h (by simp [leadsWith])
    | cons c cs =>
      simp only [List.cons_append, leadsWith, Bool.and_eq_true]
      rintro ⟨h1, h2⟩
      exact ⟨h1, ih cs h2⟩

/-- If a concatenation occurs as a substring, so does its first part. -/
theorem hasSub_of_append (p q n : List Char) :
    hasSub (p ++ q) n = true → hasSub p n = true := by
  induction n with
  | nil =>
    simp only [hasSub, List.isEmpty_eq_true, List.append_eq_nil]
    rintro ⟨h1, _⟩
    simp [h1]
  | cons c cs ih =>
    simp only [hasSub, Bool.or_eq_true]
    rintro (h | h)
    · exact Or.inl (leadsWith_of_append p q _ h)
    · exact Or.inr (ih h)

/-- C8: the incompatibility score mapping on the normalised, upper-cased
risk level: SEVERE/CRITIQUE → min(30×2.0×1.5, 100) = 90, otherwise
ELEVE/HAUT → min(30×2.0, 100) = 60, otherwise MOYEN/MODERE → 30,
otherwise FAIBLE/BAS → 15, and any unrecognised level → 30. -/
theorem C8_incompatibility_score_mapping (s : List Char) :
    ((hasSub "SEVERE".toList ((normalize_text s).map upperM) = true
      ∨ hasSub "CRITIQUE".toList ((normalize_text s).map upperM) = true) →
      calculate_incompatibility_score s = 90)
    ∧ (hasSub "SEVERE".toList ((normalize_text s).map upperM) = false →
       hasSub "CRITIQUE".toList ((normalize_text s).map upperM) = false →
       (hasSub "ELEVE".toList ((normalize_text s).map upperM) = true
        ∨ hasSub "HAUT".toList ((normalize_text s).map upperM) = true) →
       calculate_incompatibility_score s = 60)
    ∧ (hasSub "SEVERE".toList ((normalize_text s).map upperM) = false →
       hasSub "CRITIQUE".toList ((normalize_text s).map upperM) = false →
       hasSub "ELEVE".toList ((normalize_text s).map upperM) = false →
       hasSub "HAUT".toList ((normalize_text s).map upperM) = false →
       (hasSub "MOYEN".toList ((normalize_text s).map upperM) = true
        ∨ hasSub "MODERE".toList ((normalize_text s).map upperM) = true) →
       calculate_incompatibility_score s = 30)
    ∧ (hasSub "SEVERE".toList ((normalize_text s).map upperM) = false →
       hasSub "CRITIQUE".toList ((normalize_text s).map upperM) = false →
       hasSub "ELEVE".toList ((normalize_text s).map upperM) = false →
       hasSub "HAUT".toList ((normalize_text s).map upperM) = false →
       hasSub "MOYEN".toList ((normalize_text s).map upperM) = false →
       hasSub "MODERE".toList ((normalize_text s).map upperM) = false →
       (hasSub "FAIBLE".toList ((normalize_text s).map upperM) = true
        ∨ hasSub "BAS".toList ((normalize_text s).map upperM) = true) →
       calculate_incompatibility_score s = 15)
    ∧ (hasSub "SEVERE".toList ((normalize_text s).map upperM) = false →
       hasSub "CRITIQUE".toList ((normalize_text s).map upperM) = false →
       hasSub "ELEVE".toList ((normalize_text s).map upperM) = false →
       hasSub "HAUT".toList ((normalize_text s).map upperM) = false →
       hasSub "MOYEN".toList ((normalize_text s).map upperM) = false →
       hasSub "MODERE".toList ((normalize_text s).map upperM) = false →
       hasSub "FAIBLE".toList ((normalize_text s).map upperM) = false →
       hasSub "BAS".toList ((normalize_text s).map upperM) = false →
       calculate_incompatibility_score s = 30) := by
  have hEE : hasSub "ELEVE".toList ((normalize_text s).map upperM) = false →
      hasSub "ELEVEE".toList ((normalize_text s).map upperM) = false := by
    intro h
    cases h2 : hasSub "ELEVEE".toList ((normalize_text s).map upperM) with
    | false => rfl
    | true =>
      rw [show ("ELEVEE".toList) = "ELEVE".toList ++ "E".toList by decide]
        at h2
      rw [hasSub_of_append _ _ _ h2] at h
      exact absurd h (by simp)
  have hMM : hasSub "MOYEN".toList ((normalize_text s).map upperM) = false →
      hasSub "MOYENNE".toList ((normalize_text s).map upperM) = false := by
    intro h
    cases h2 : hasSub "MOYENNE".toList ((normalize_text s).map upperM) with
    | false => rfl
    | true =>
      rw [show ("MOYENNE".toList) = "MOYEN".toList ++ "NE".toList by decide]
        at h2
      rw [hasSub_of_append _ _ _ h2] at h
      exact absurd h (by simp)
  refine ⟨?_, ?_, ?_, ?_, ?_⟩
  · rintro (h | h) <;>
      · simp only [calculate_incompatibility_score, h, Bool.true_or,
          Bool.or_true, eq_self_iff_true, if_true]
        norm_num [INCOMPATIBILITY_BASE_SCORE,
          SEVERE_INCOMPATIBILITY_MULTIPLIER, MAX_INCOMPATIBILITY_SCORE]
  · intro hS hC hor
    rcases hor with h | h <;>
      · simp only [calculate_incompatibility_score, hS, hC, h, Bool.true_or,
          Bool.or_true, Bool.false_or, Bool.or_false, Bool.false_eq_true,
          eq_self_iff_true, if_true, if_false]
        norm_num [INCOMPATIBILITY_BASE_SCORE,
          SEVERE_INCOMPATIBILITY_MULTIPLIER, MAX_INCOMPATIBILITY_SCORE]
  · intro hS hC hE hH hor
    rcases hor with h | h <;>
      · simp only [calculate_incompatibility_score, hS, hC, hE, hH, hEE hE,
          h, Bool.true_or, Bool.or_true, Bool.false_or, Bool.or_false,
          Bool.false_eq_true, eq_self_iff_true, if_true, if_false]
        norm_num [INCOMPATIBILITY_BASE_SCORE,
          SEVERE_INCOMPATIBILITY_MULTIPLIER, MAX_INCOMPATIBILITY_SCORE]
  · intro hS hC hE hH hM hMo hor
    rcases hor with h | h <;>
      · simp only [calculate_incompatibility_score, hS, hC, hE, hH, hEE hE,
          hM, hMo, hMM hM, h, Bool.true_or, Bool.or_true, Bool.false_or,
          Bool.or_false, Bool.false_eq_true, eq_self_iff_true, if_true,
          if_false]
        norm_num [INCOMPATIBILITY_BASE_SCORE,
          SEVERE_INCOMPATIBILITY_MULTIPLIER, MAX_INCOMPATIBILITY_SCORE]
  · intro hS hC hE hH hM hMo hF hB
    simp only [calculate_incompatibility_score, hS, hC, hE, hH, hEE hE,
      hM, hMo, hMM hM, hF, hB, Bool.false_or, Bool.or_false,
      Bool.false_eq_true, if_false]
    norm_num [INCOMPATIBILITY_BASE_SCORE]

/-- C8 witness at the levels SEVERE and FAIBLE. -/
theorem C8_incompatibility_score_mapping_witness :
    calculate_incompatibility_score "SEVERE".toList = 90
    ∧ calculate_incompatibility_score "FAIBLE".toList = 15 :=
  ⟨(C8_incompatibility_score_mapping "SEVERE".toList).1 (Or.inl (by decide)),
   (C8_incompatibility_score_mapping "FAIBLE".toList).2.2.2.1 (by decide)
     (by decide) (by decide) (by decide) (by decide) (by decide)
     (Or.inl (by decide))⟩

/-- C2: the code, at the achievable category scores 90 (very flammable),
95 (very toxic) and 90 (severe incompatibility) with no dangerous
reaction, temperature 40 °C, humidity 50 % and no ventilation, returns a
final score of 110: the environmental stage has no upper clamp, so the
final score is NOT confined to [0,100], contradicting the source's own
docstrings ("score_global (0-100)", "Returns: adjusted_score (int,
0-100)") and its test assertions. -/
theorem C2_final_score_exceeds_100 :
    (analyze_scoring 90 95 90 false ⟨some 40, some 50, some false⟩).1 = 110
    ∧ ¬((analyze_scoring 90 95 90 false
          ⟨some 40, some 50, some false⟩).1 ≤ 100) := by
  have hbase : calculate_global_risk_score 90 95 90 false = 367/4 := by
    simp only [calculate_global_risk_score]
    norm_num [min_def]
  have hfloor : ⌊(1101/10 : ℚ)⌋ = 110 := by
    rw [Int.floor_eq_iff]
    norm_num
  have henv : apply_environmental_adjustments (367/4) 40 50 false false
      = 110 := by
    simp only [apply_environmental_adjustments, pyRound]
    norm_num [max_def, hfloor]
  have hfinal : (analyze_scoring 90 95 90 false
      ⟨some 40, some 50, some false⟩).1 = 110 := by
    simp only [analyze_scoring, Option.getD, hbase, henv]
    norm_num
  exact ⟨hfinal, by rw [hfinal]; norm_num⟩

/-- C4: when the context lacks a temperature or lacks a humidity value,
the final score of the pipeline is the base aggregated score unchanged
(in particular the ventilation flag has no effect and the
dangerous-reaction floor of 100 is not applied), and for a dangerous
reaction the final score is then at most 77.5. -/
theorem C4_environment_skipped_when_reading_missing
    (f t i : ℚ) (d : Bool) (ctx : LabContext)
    (h : ctx.temperature_c = none ∨ ctx.humidite_percent = none) :
    (analyze_scoring f t i d ctx).1 = calculate_global_risk_score f t i d
    ∧ (analyze_scoring f t i d ctx).2
        = get_risk_level_only (calculate_global_risk_score f t i d)
    ∧ (d = true → (analyze_scoring f t i d ctx).1 ≤ 155/2) := by
  have hskip : (analyze_scoring f t i d ctx).1
      = calculate_global_risk_score f t i d := by
    rcases ctx with ⟨T, H, v⟩
    rcases h with h | h <;> subst h
    · rfl
    · rcases T with _ | T <;> rfl
  refine ⟨hskip, ?_, ?_⟩
  · rw [show (analyze_scoring f t i d ctx).2
        = get_risk_level_only (analyze_scoring f t i d ctx).1 from rfl, hskip]
  · intro hd
    subst hd
    rw [hskip]
    have h1 : min (100:ℚ) f ≤ 100 := min_le_left _ _
    have h2 : max (min (100:ℚ) t) 40 ≤ 100 :=
      max_le (min_le_left _ _) (by norm_num)
    calc calculate_global_risk_score f t i true
        ≤ (min 100 f) * (20/100) + (max (min 100 t) 40) * (35/100)
            + 50 * (45/100) := by
          simp only [calculate_global_risk_score, if_pos rfl]
          exact min_le_right _ _
      _ ≤ 155/2 := by nlinarith [h1, h2]

/-- C4 witness: a dangerous pair with maximal substance scores but no
environment readings stays at 77.5, far from the floor of 100. -/
theorem C4_environment_skipped_when_reading_missing_witness :
    (analyze_scoring 100 100 100 true ⟨none, some 50, some true⟩).1
      = calculate_global_risk_score 100 100 100 true
    ∧ (analyze_scoring 100 100 100 true ⟨none, some 50, some true⟩).1
        ≤ 155/2 := by
  have h := C4_environment_skipped_when_reading_missing 100 100 100 true
    ⟨none, some 50, some true⟩ (Or.inl rfl)
  exact ⟨h.1, h.2.2 rfl⟩

/-- Product bound used for the dangerous-reaction floor: a base score of
at most 77.5 multiplied by a temperature factor at most 1, a humidity
factor at most 1.05 and a ventilation factor at most 1 stays below 100. -/
theorem adjusted_le_100 (b tm hm vm : ℚ) (hb : b ≤ 155/2)
    (htm1 : 0 < tm) (htm2 : tm ≤ 1) (hhm1 : 0 < hm) (hhm2 : hm ≤ 21/20)
    (hvm1 : 0 < vm) (hvm2 : vm ≤ 1) : b * tm * hm * vm ≤ 100 := by
  rcases le_or_lt b 0 with hb0 | hb0
  · have h1 : b * tm ≤ 0 := mul_nonpos_iff.mpr (Or.inr ⟨hb0, htm1.le⟩)
    have h2 : b * tm * hm ≤ 0 := mul_nonpos_iff.mpr (Or.inr ⟨h1, hhm1.le⟩)
    have h3 : b * tm * hm * vm ≤ 0 :=
      mul_nonpos_iff.mpr (Or.inr ⟨h2, hvm1.le⟩)
    linarith
  · have e1 : b * tm ≤ 155/2 := by nlinarith
    have e1p : 0 < b * tm := mul_pos hb0 htm1
    have e2 : b * tm * hm ≤ (155/2) * (21/20) :=
      mul_le_mul e1 hhm2 hhm1.le (by norm_num)
    have e2p : 0 < b * tm * hm := mul_pos e1p hhm1
    have e3 : b * tm * hm * vm ≤ (155/2) * (21/20) * 1 :=
      mul_le_mul e2 hvm2 hvm1.le (by norm_num)
    linarith

/-- Python's round maps 100 to 100. -/
theorem pyRound_100 : pyRound 100 = 100 := by
  have hf : ⌊(100:ℚ)⌋ = 100 := by
    rw [Int.floor_eq_iff]
    norm_num
  simp only [pyRound, hf]
  norm_num

/-- With the dangerous-reaction flag set, a base score of at most 77.5
and a temperature of at most 30 °C, the environmental stage returns
exactly the floor of 100, whatever the humidity and ventilation. -/
theorem apply_env_dangerous_favorable (b T H : ℚ) (vb : Bool)
    (hbound : b ≤ 155/2) (hT : T ≤ 30) :
    apply_environmental_adjustments b T H vb true = 100 := by
  have htm : 0 < (if T < 20 then (70/100:ℚ) else if T ≤ 30 then 1
        else if T ≤ 50 then 1 + (T - 30) * (2/100)
        else 140/100 + (T - 50) * (4/100))
      ∧ (if T < 20 then (70/100:ℚ) else if T ≤ 30 then 1
        else if T ≤ 50 then 1 + (T - 30) * (2/100)
        else 140/100 + (T - 50) * (4/100)) ≤ 1 := by
    split_ifs <;> constructor <;> first | norm_num | linarith
  have hhm : 0 < (if H < 20 then (95/100:ℚ) else if H ≤ 40 then 98/100
        else if H ≤ 60 then 1 else if H ≤ 80 then 102/100 else 105/100)
      ∧ (if H < 20 then (95/100:ℚ) else if H ≤ 40 then 98/100
        else if H ≤ 60 then 1 else if H ≤ 80 then 102/100 else 105/100)
          ≤ 21/20 := by
    split_ifs <;> constructor <;> norm_num
  have hvm : 0 < (if vb = true then (85/100:ℚ) else 1)
      ∧ (if vb = true then (85/100:ℚ) else 1) ≤ 1 := by
    cases vb <;> constructor <;> norm_num
  simp only [apply_environmental_adjustments, if_true]
  rw [max_eq_right (adjusted_le_100 _ _ _ _ hbound htm.1 htm.2 hhm.1 hhm.2
    hvm.1 hvm.2)]
  exact pyRound_100

/-- With the dangerous-reaction flag set, the aggregated base score is at
most 0.20×100 + 0.35×100 + 0.45×50 = 77.5. -/
theorem calculate_global_risk_score_dangerous_le (f t i : ℚ) :
    calculate_global_risk_score f t i true ≤ 155/2 := by
  have h1 : min (100:ℚ) f ≤ 100 := min_le_left _ _
  have h2 : max (min (100:ℚ) t) 40 ≤ 100 :=
    max_le (min_le_left _ _) (by norm_num)
  calc calculate_global_risk_score f t i true
      ≤ (min 100 f) * (20/100) + (max (min 100 t) 40) * (35/100)
          + 50 * (45/100) := by
        simp only [calculate_global_risk_score, if_pos rfl]
        exact min_le_right _ _
    _ ≤ 155/2 := by nlinarith [h1, h2]

/-- C1: for every request in which a known dangerous reaction is
detected and whose environment readings are present with a temperature
of at most 30 °C (favorable or baseline conditions, e.g. 15 °C with
ventilation), the pipeline returns the floored final score of exactly
100 and risk level ELEVE, whatever the category scores, the humidity and
the ventilation flag: the environmental stage computes
`max(base × temp_mult × humidity_mult × ventilation_mult, 100)` when the
flag is set. -/
theorem C1_dangerous_reaction_forces_100 (f t i T H : ℚ) (v : Option Bool)
    (hT : T ≤ 30) :
    analyze_scoring f t i true ⟨some T, some H, v⟩ = (100, .ELEVE) := by
  have henv := apply_env_dangerous_favorable
    (calculate_global_risk_score f t i true) T H (v.getD false)
    (calculate_global_risk_score_dangerous_le f t i) hT
  have hfinal : (analyze_scoring f t i true ⟨some T, some H, v⟩).1
      = 100 := by
    simp only [analyze_scoring, henv]
    norm_num
  have hlevel : (analyze_scoring f t i true ⟨some T, some H, v⟩).2
      = get_risk_level_only (analyze_scoring f t i true
          ⟨some T, some H, v⟩).1 := rfl
  have : (analyze_scoring f t i true ⟨some T, some H, v⟩).2 = .ELEVE := by
    rw [hlevel, hfinal]
    simp only [get_risk_level_only, determine_risk_level,
      RISK_LEVEL_THRESHOLDS_ELEVE]
    norm_num
  exact Prod.ext hfinal this

/-- C1 witness: a chloroform-plus-bleach style pair (category scores 90,
95, 90) at 15 °C, 50 % humidity, ventilated. -/
theorem C1_dangerous_reaction_forces_100_witness :
    analyze_scoring 90 95 90 true ⟨some 15, some 50, some true⟩
      = (100, .ELEVE) :=
  C1_dangerous_reaction_forces_100 90 95 90 15 50 (some true) (by norm_num)

/-- C5 counterexample: a toxicity label reading exactly `TOXIQUE` does
NOT get the table score 70: the first matching loop also accepts the
label as a substring of a level name, and `TOXIQUE` is a substring of
`TRES_TOXIQUE`, the first key tried, so the evaluator returns 95 with
level TRES_TOXIQUE. -/
theorem C5_toxique_label_counterexample :
    (evaluate_toxicity (some "TOXIQUE".toList)).score ≠ 70
    ∧ evaluate_toxicity (some "TOXIQUE".toList)
        = ⟨95, .TRES_TOXIQUE, false⟩ := by
  constructor
  · decide
  · decide

/-- C5 (amended): a substance whose toxicity label normalises exactly to
one of the six canonical level names receives that level with its table
score, EXCEPT the label `TOXIQUE`, which is matched as TRES_TOXIQUE with
score 95 because the matcher also accepts substring containment of the
label in the level name and tries TRES_TOXIQUE first; when the label is
absent or matches nothing, the evaluator returns the precautionary
default NOCIF (45) marked as default-applied. -/
theorem C5_toxicity_table_amended :
    evaluate_toxicity (some "TRES_TOXIQUE".toList)
      = ⟨95, .TRES_TOXIQUE, false⟩
    ∧ evaluate_toxicity (some "TOXIQUE".toList)
        = ⟨95, .TRES_TOXIQUE, false⟩
    ∧ evaluate_toxicity (some "NOCIF".toList) = ⟨45, .NOCIF, false⟩
    ∧ evaluate_toxicity (some "IRRITANT".toList) = ⟨25, .IRRITANT, false⟩
    ∧ evaluate_toxicity (some "PEU_TOXIQUE".toList)
        = ⟨10, .PEU_TOXIQUE, false⟩
    ∧ evaluate_toxicity (some "NON_TOXIQUE".toList)
        = ⟨0, .NON_TOXIQUE, false⟩
    ∧ evaluate_toxicity none = ⟨45, .NOCIF, true⟩
    ∧ evaluate_toxicity (some "INCONNU".toList) = ⟨45, .NOCIF, true⟩ := by
  refine ⟨?_, ?_, ?_, ?_, ?_, ?_, ?_, ?_⟩ <;> decide

/-- C9: when the substance list is missing, not a list, empty, longer
than 10 entries, or contains a name with fewer than 2 alphanumeric
characters after normalisation, `analyze_risk` returns a failure result
(`success = false`) with a non-empty error list, the score field keeps
its initial value 0, and the outcome does not depend on the evaluator
pipeline — validation short-circuits before any evaluator executes. -/
theorem C9_validation_short_circuits (d : InputData)
    (p q : List (List Char) → ℚ × RiskLevel)
    (h : d.substances = .missing ∨ d.substances = .notAList
      ∨ d.substances = .items []
      ∨ (∃ l, d.substances = .items l ∧ 10 < l.length)
      ∨ (∃ l n, d.substances = .items l ∧ n ∈ l
          ∧ is_valid_chemical_name n = false)) :
    (analyze_risk d p).success = false
    ∧ (analyze_risk d p).erreurs ≠ []
    ∧ (analyze_risk d p).score_global = 0
    ∧ analyze_risk d p = analyze_risk d q := by
  have hval : validate_input d ≠ [] := by
    rcases h with h | h | h | ⟨l, h, hlen⟩ | ⟨l, n, h, hmem, hname⟩ <;>
      rw [show d = ⟨d.substances⟩ from rfl, h]
    · simp [validate_input]
    · simp [validate_input]
    · simp [validate_input]
    · have hne : l.isEmpty = false := by
        cases l with
        | nil => simp at hlen
        | cons a as => rfl
      simp only [validate_input, hne, Bool.false_eq_true, if_false,
        decide_eq_true_eq]
      rw [if_pos hlen]
      simp
    · have hne : l.isEmpty = false := by
        cases l with
        | nil => exact absurd hmem (List.not_mem_nil n)
        | cons a as => rfl
      simp only [validate_input, hne, Bool.false_eq_true, if_false]
      intro hcontra
      rcases List.append_eq_nil.mp hcontra with ⟨-, h2⟩
      have hn : n ∈ l.filter (fun m => !(is_valid_chemical_name m)) :=
        List.mem_filter.mpr ⟨hmem, by rw [hname]; rfl⟩
      rw [List.map_eq_nil_iff] at h2
      rw [h2] at hn
      exact absurd hn (List.not_mem_nil n)
  have hempty : (validate_input d).isEmpty = false := by
    cases hv : validate_input d with
    | nil => exact absurd hv hval
    | cons a as => rfl
  have hfail : ∀ r : List (List Char) → ℚ × RiskLevel,
      analyze_risk d r
        = (⟨false, 0, .FAIBLE, validate_input d⟩ : AnalysisResult) := by
    intro r
    simp only [analyze_risk]
    rw [if_neg (by rw [hempty]; simp)]
  rw [hfail p, hfail q]
  exact ⟨rfl, by simpa using hval, rfl, rfl⟩

/-- C9 witness: the empty substance list with two different downstream
pipelines. -/
theorem C9_validation_short_circuits_witness :
    (analyze_risk ⟨.items []⟩ (fun _ => (0, .FAIBLE))).success = false
    ∧ (analyze_risk ⟨.items []⟩ (fun _ => (0, .FAIBLE))).erreurs ≠ []
    ∧ (analyze_risk ⟨.items []⟩ (fun _ => (0, .FAIBLE))).score_global = 0
    ∧ analyze_risk ⟨.items []⟩ (fun _ => (0, .FAIBLE))
        = analyze_risk ⟨.items []⟩ (fun _ => (100, .ELEVE)) :=
  C9_validation_short_circuits ⟨.items []⟩ _ _ (Or.inr (Or.inr (Or.inl rfl)))

/-! ## Idempotence of the text normaliser -/

/-- A successful lookup exhibits a table entry. -/
theorem tlook_mem {α : Type} (t : List (Char × α)) (c : Char) (v : α) :
    tlook t c = some v → (c, v) ∈ t := by
  induction t with
  | nil => intro h; exact absurd h (by simp [tlook])
  | cons p rest ih =>
    rcases p with ⟨k, w⟩
    simp only [tlook]
    split_ifs with hck
    · intro h
      injection h with h
      subst hck
      subst h
      exact List.mem_cons_self _ _
    · intro h
      exact List.mem_cons_of_mem _ (ih h)

/-- No value of the lower-case table is itself a key: lowering is
idempotent. -/
theorem lowerTable_vals_not_keys :
    lowerTable.all (fun p => (tlook lowerTable p.2).isNone) = true := by
  decide

/-- `str.lower` is idempotent on characters. -/
theorem lowerM_fix (c : Char) : lowerM (lowerM c) = lowerM c := by
  cases h : tlook lowerTable c with
  | none =>
    have hc : lowerM c = c := by simp [lowerM, h]
    rw [hc, hc]
  | some v =>
    have hc : lowerM c = v := by simp [lowerM, h]
    have hv := List.all_eq_true.mp lowerTable_vals_not_keys _
      (tlook_mem _ _ _ h)
    simp only [Option.isNone_iff_eq_none] at hv
    rw [hc]
    simp [lowerM, hv]

/-- A character left untouched by every stage of the normaliser: it is
its own lower case, decomposes to itself, and is not a combining mark. -/
def goodChar (c : Char) : Prop :=
  lowerM c = c ∧ nfdDecompose c = [c] ∧ isMnC c = false

/-- Every entry of the decomposition table either has a key that the
lower-case map changes, or decomposes into characters that are combining
marks or are fixed by both tables. -/
theorem nfdTable_entries_good :
    nfdTable.all (fun p =>
      (match tlook lowerTable p.1 with
       | some v => v != p.1
       | none => false)
      || p.2.all (fun c => isMnC c
          || ((tlook lowerTable c).isNone && (tlook nfdTable c).isNone))) =
      true := by
  decide

/-- Decomposing a lower-case-fixed character only produces marks and good
characters. -/
theorem goodOfDecomp (x c : Char) (hx : lowerM x = x)
    (hc : c ∈ nfdDecompose x) (hmn : isMnC c = false) : goodChar c := by
  cases htx : tlook nfdTable x with
  | none =>
    have hd : nfdDecompose x = [x] := by simp [nfdDecompose, htx]
    rw [hd] at hc
    rcases List.mem_singleton.mp hc with rfl
    exact ⟨hx, hd, hmn⟩
  | some vs =>
    have hfact := List.all_eq_true.mp nfdTable_entries_good _
      (tlook_mem _ _ _ htx)
    simp only [Bool.or_eq_true] at hfact
    rcases hfact with hkey | hall
    · exfalso
      cases hlk : tlook lowerTable x with
      | none => rw [hlk] at hkey; exact Bool.false_ne_true hkey
      | some v =>
        rw [hlk] at hkey
        have hvx : v ≠ x := by simpa using hkey
        have : lowerM x = v := by simp [lowerM, hlk]
        exact hvx (this ▸ hx)
    · have hd : nfdDecompose x = vs := by simp [nfdDecompose, htx]
      rw [hd] at hc
      have hcfact := List.all_eq_true.mp hall c hc
      simp only [Bool.or_eq_true, Bool.and_eq_true,
        Option.isNone_iff_eq_none] at hcfact
      rcases hcfact with hcmn | ⟨hlk, hnk⟩
      · rw [hmn] at hcmn; exact absurd hcmn Bool.false_ne_true
      · exact ⟨by simp [lowerM, hlk], by simp [nfdDecompose, hnk], hmn⟩

/-- Members of the collapsed string were present before, except the
inserted single spaces. -/
theorem mem_collapseAux (b : Bool) (l : List Char) (c : Char) :
    c ∈ collapseAux b l → c = ' ' ∨ c ∈ l := by
  induction l generalizing b with
  | nil => intro h; exact absurd h (List.not_mem_nil c)
  | cons a rest ih =>
    simp only [collapseAux]
    split_ifs with h1 h2
    · intro h
      rcases ih true h with h | h
      · exact Or.inl h
      · exact Or.inr (List.mem_cons_of_mem _ h)
    · intro h
      rcases List.mem_cons.mp h with h | h
      · exact Or.inl h
      · rcases ih true h with h | h
        · exact Or.inl h
        · exact Or.inr (List.mem_cons_of_mem _ h)
    · intro h
      rcases List.mem_cons.mp h with h | h
      · exact Or.inr (h ▸ List.mem_cons_self _ _)
      · rcases ih false h with h | h
        · exact Or.inl h
        · exact Or.inr (List.mem_cons_of_mem _ h)

/-- Members survive right-trimming. -/
theorem mem_trimRight (l : List Char) (c : Char) :
    c ∈ trimRight l → c ∈ l := by
  induction l with
  | nil => intro h; exact h
  | cons a rest ih =>
    simp only [trimRight]
    cases htr : trimRight rest with
    | nil =>
      split_ifs
      · intro h; exact absurd h (List.not_mem_nil c)
      · intro h
        rcases List.mem_singleton.mp h with rfl
        exact List.mem_cons_self _ _
    | cons x xs =>
      intro h
      rcases List.mem_cons.mp h with h | h
      · exact h ▸ List.mem_cons_self _ _
      · exact List.mem_cons_of_mem _ (ih (htr ▸ h))

/-- Members survive `dropWhile`. -/
theorem mem_dropWhileM (p : Char → Bool) (l : List Char) (c : Char) :
    c ∈ l.dropWhile p → c ∈ l := by
  induction l with
  | nil => intro h; exact h
  | cons a rest ih =>
    rw [List.dropWhile_cons]
    split_ifs
    · intro h; exact List.mem_cons_of_mem _ (ih h)
    · intro h; exact h

/-- The space character is untouched by every stage. -/
theorem goodChar_space : goodChar ' ' := by
  refine ⟨?_, ?_, ?_⟩ <;> decide

/-- Every character surviving the lower-case, decomposition and
mark-filter stages is good. -/
theorem mem_filter_stage (l : List Char) (c : Char)
    (hc : c ∈ remove_accents (l.map lowerM)) : goodChar c := by
  unfold remove_accents at hc
  rcases List.mem_filter.mp hc with ⟨hmem, hmn⟩
  rcases List.mem_flatMap.mp hmem with ⟨x, hx, hcx⟩
  rcases List.mem_map.mp hx with ⟨y, _, rfl⟩
  exact goodOfDecomp (lowerM y) c (lowerM_fix y) hcx
    (by simpa using hmn)

/-- Every character of a normalised string is good. -/
theorem normalize_mem_good (l : List Char) (c : Char)
    (hc : c ∈ normalize_text l) : goodChar c := by
  unfold normalize_text at hc
  have h1 := mem_dropWhileM _ _ _ (mem_trimRight _ _ hc)
  rcases mem_collapseAux false _ c h1 with h2 | h2
  · exact h2 ▸ goodChar_space
  · exact mem_filter_stage l c h2

/-- Every whitespace character of the list is the plain space. -/
def allSpOk (l : List Char) : Prop :=
  ∀ c ∈ l, isSpaceM c = true → c = ' '

/-- No two adjacent whitespace characters. -/
def noAdjSp : List Char → Bool
  | [] => true
  | [_] => true
  | a :: b :: t => !(isSpaceM a && isSpaceM b) && noAdjSp (b :: t)

/-- The head (if any) is not whitespace. -/
def headNotSp : List Char → Prop
  | [] => True
  | c :: _ => isSpaceM c = false

/-- The last element (if any) is not whitespace. -/
def lastNotSp : List Char → Prop
  | [] => True
  | [c] => isSpaceM c = false
  | _ :: b :: t => lastNotSp (b :: t)

/-- Collapsing in the just-seen-whitespace state yields a string whose
head is not whitespace. -/
theorem headNotSp_collapseAux_true (l : List Char) :
    headNotSp (collapseAux true l) := by
  induction l with
  | nil => trivial
  | cons c rest ih =>
    simp only [collapseAux]
    split_ifs with h
    · exact ih
    · exact eq_false_of_ne_true h

/-- All whitespace in a collapsed string is the plain space. -/
theorem allSpOk_collapseAux (b : Bool) (l : List Char) :
    allSpOk (collapseAux b l) := by
  induction l generalizing b with
  | nil => intro c hc; exact absurd hc (List.not_mem_nil c)
  | cons a rest ih =>
    intro c hc hsp
    simp only [collapseAux] at hc
    split_ifs at hc with h1 h2
    · exact ih true c hc hsp
    · rcases List.mem_cons.mp hc with h | h
      · exact h
      · exact ih true c h hsp
    · rcases List.mem_cons.mp hc with h | h
      · subst h; rw [hsp] at h1; exact absurd rfl h1
      · exact ih false c h hsp

/-- A collapsed string has no two adjacent whitespace characters. -/
theorem noAdjSp_collapseAux (b : Bool) (l : List Char) :
    noAdjSp (collapseAux b l) = true := by
  induction l generalizing b with
  | nil => rfl
  | cons a rest ih =>
    simp only [collapseAux]
    split_ifs with h1 h2
    · exact ih true
    · cases hx : collapseAux true rest with
      | nil => rfl
      | cons x xs =>
        have hhead := headNotSp_collapseAux_true rest
        rw [hx] at hhead
        have hxsp : isSpaceM x = false := hhead
        simp only [noAdjSp, hxsp, Bool.and_false, Bool.not_false,
          Bool.true_and]
        rw [← hx]
        exact ih true
    · cases hx : collapseAux false rest with
      | nil => rfl
      | cons x xs =>
        have h1f : isSpaceM a = false := eq_false_of_ne_true h1
        simp only [noAdjSp, h1f, Bool.false_and, Bool.not_false,
          Bool.true_and]
        rw [← hx]
        exact ih false

/-- Splitting a boolean conjunction. -/
theorem andE {a b : Bool} (h : (a && b) = true) : a = true ∧ b = true := by
  simp only [Bool.and_eq_true] at h
  exact h

/-- One-step unfolding of `trimRight` on a cons. -/
theorem trimRight_cons_eq (c : Char) (rest : List Char) :
    trimRight (c :: rest)
      = match trimRight rest with
        | [] => if isSpaceM c = true then [] else [c]
        | r => c :: r := rfl

/-- `noAdjSp` passes to the tail. -/
theorem noAdjSp_tail (a : Char) (l : List Char)
    (h : noAdjSp (a :: l) = true) : noAdjSp l = true := by
  cases l with
  | nil => rfl
  | cons b t => exact (andE h).2

/-- `dropWhile` preserves `noAdjSp`. -/
theorem noAdjSp_dropWhile (l : List Char)
    (h : noAdjSp l = true) : noAdjSp (l.dropWhile isSpaceM) = true := by
  induction l with
  | nil => exact h
  | cons a rest ih =>
    rw [List.dropWhile_cons]
    split_ifs
    · exact ih (noAdjSp_tail a rest h)
    · exact h

/-- The head of `dropWhile isSpaceM` is not whitespace. -/
theorem headNotSp_dropWhile (l : List Char) :
    headNotSp (l.dropWhile isSpaceM) := by
  induction l with
  | nil => trivial
  | cons a rest ih =>
    rw [List.dropWhile_cons]
    split_ifs with h
    · exact ih
    · exact eq_false_of_ne_true h

/-- `trimRight` of a nonempty list is empty or keeps the head. -/
theorem trimRight_cons (c : Char) (rest : List Char) :
    trimRight (c :: rest) = []
    ∨ ∃ r, trimRight (c :: rest) = c :: r := by
  rw [trimRight_cons_eq]
  cases trimRight rest with
  | nil =>
    split_ifs
    · exact Or.inl rfl
    · exact Or.inr ⟨[], rfl⟩
  | cons x xs => exact Or.inr ⟨x :: xs, rfl⟩

/-- `trimRight` preserves `noAdjSp`. -/
theorem noAdjSp_trimRight (l : List Char)
    (h : noAdjSp l = true) : noAdjSp (trimRight l) = true := by
  induction l with
  | nil => exact h
  | cons c rest ih =>
    have htl := ih (noAdjSp_tail c rest h)
    rw [trimRight_cons_eq]
    cases htr : trimRight rest with
    | nil => split_ifs <;> rfl
    | cons x xs =>
      rw [htr] at htl
      cases rest with
      | nil => exact absurd htr (by simp [trimRight])
      | cons y ys =>
        have hxy : x = y := by
          rcases trimRight_cons y ys with h2 | ⟨r, h2⟩ <;> rw [h2] at htr
          · exact absurd htr (by simp)
          · injection htr with h3 _
            exact h3.symm
        have hpair := (andE h).1
        subst hxy
        simp only [noAdjSp, htl, Bool.and_true]
        exact hpair

/-- The result of `trimRight` does not end in whitespace. -/
theorem lastNotSp_trimRight (l : List Char) : lastNotSp (trimRight l) := by
  induction l with
  | nil => trivial
  | cons c rest ih =>
    rw [trimRight_cons_eq]
    cases htr : trimRight rest with
    | nil =>
      split_ifs with h
      · trivial
      · exact eq_false_of_ne_true h
    | cons x xs =>
      rw [htr] at ih
      exact ih

/-- `trimRight` keeps `headNotSp`. -/
theorem headNotSp_trimRight (l : List Char) (h : headNotSp l) :
    headNotSp (trimRight l) := by
  cases l with
  | nil => trivial
  | cons c rest =>
    rcases trimRight_cons c rest with h2 | ⟨r, h2⟩
    · rw [h2]; trivial
    · rw [h2]; exact h

/-- `allSpOk` restricted along membership. -/
theorem allSpOk_of_subset (l m : List Char)
    (hsub : ∀ c ∈ l, c ∈ m) (h : allSpOk m) : allSpOk l :=
  fun c hc hsp => h c (hsub c hc) hsp

/-- A string whose whitespace is single plain spaces collapses to
itself. -/
theorem collapseAux_eq_self (l : List Char)
    (hsp : allSpOk l) (hadj : noAdjSp l = true) :
    collapseAux false l = l
    ∧ (headNotSp l → collapseAux true l = l) := by
  induction l with
  | nil => exact ⟨rfl, fun _ => rfl⟩
  | cons c rest ih =>
    have hsp' : allSpOk rest :=
      allSpOk_of_subset rest (c :: rest)
        (fun x hx => List.mem_cons_of_mem _ hx) hsp
    have ⟨hf, ht⟩ := ih hsp' (noAdjSp_tail c rest hadj)
    cases hc : isSpaceM c with
    | true =>
      have hcsp : c = ' ' := hsp c (List.mem_cons_self _ _) hc
      have hrest : collapseAux true rest = rest := by
        cases rest with
        | nil => rfl
        | cons x xs =>
          apply ht
          have hpair := (andE hadj).1
          rw [hc] at hpair
          simp only [Bool.true_and, Bool.not_eq_true'] at hpair
          exact hpair
      constructor
      · simp only [collapseAux, hc, if_true, Bool.false_eq_true, if_false,
          hrest]
        rw [hcsp]
      · intro hhead
        rw [show headNotSp (c :: rest) = (isSpaceM c = false) from rfl]
          at hhead
        rw [hc] at hhead
        exact absurd hhead (by simp)
    | false =>
      constructor
      · simp only [collapseAux, hc, Bool.false_eq_true, if_false, hf]
      · intro _
        simp only [collapseAux, hc, Bool.false_eq_true, if_false, hf]

/-- A string not starting with whitespace is fixed by `dropWhile`. -/
theorem dropWhile_eq_self (l : List Char) (h : headNotSp l) :
    l.dropWhile isSpaceM = l := by
  cases l with
  | nil => rfl
  | cons c rest =>
    rw [List.dropWhile_cons]
    rw [show headNotSp (c :: rest) = (isSpaceM c = false) from rfl] at h
    rw [h]
    simp

/-- A string not ending in whitespace is fixed by `trimRight`. -/
theorem trimRight_eq_self (l : List Char) (h : lastNotSp l) :
    trimRight l = l := by
  induction l with
  | nil => rfl
  | cons c rest ih =>
    cases rest with
    | nil =>
      have hc : isSpaceM c = false := h
      rw [trimRight_cons_eq]
      simp only [trimRight, hc, Bool.false_eq_true, if_false]
    | cons y ys =>
      have hrest : trimRight (y :: ys) = y :: ys := ih h
      rw [trimRight_cons_eq, hrest]

/-- A string of good characters is fixed by the lower-case map. -/
theorem map_lowerM_id (l : List Char) (h : ∀ c ∈ l, goodChar c) :
    l.map lowerM = l := by
  induction l with
  | nil => rfl
  | cons a rest ih =>
    rw [List.map_cons, (h a (List.mem_cons_self _ _)).1,
      ih (fun c hc => h c (List.mem_cons_of_mem _ hc))]

/-- A string of good characters is fixed by accent removal. -/
theorem remove_accents_id (l : List Char) (h : ∀ c ∈ l, goodChar c) :
    remove_accents l = l := by
  induction l with
  | nil => rfl
  | cons a rest ih =>
    have ha := h a (List.mem_cons_self _ _)
    have hrest := ih (fun c hc => h c (List.mem_cons_of_mem _ hc))
    unfold remove_accents at hrest ⊢
    rw [List.flatMap_cons, List.filter_append, hrest, ha.2.1]
    simp only [List.filter_cons, ha.2.2, Bool.not_false, if_true,
      List.filter_nil]
    rfl

/-- C10: the text normaliser is idempotent —
`normalize_text (normalize_text s) = normalize_text s` for every string
`s`; it lower-cases, strips diacritics, collapses whitespace runs to
single spaces and trims both ends, and a second pass leaves its own
output unchanged. -/
theorem C10_normalize_text_idempotent (s : List Char) :
    normalize_text (normalize_text s) = normalize_text s := by
  have hgood : ∀ c ∈ normalize_text s, goodChar c :=
    fun c hc => normalize_mem_good s c hc
  have h1 : (normalize_text s).map lowerM = normalize_text s :=
    map_lowerM_id _ hgood
  have h2 : remove_accents (normalize_text s) = normalize_text s :=
    remove_accents_id _ hgood
  have hallsp : allSpOk (normalize_text s) := by
    intro c hc hsp
    unfold normalize_text at hc
    have hin := mem_dropWhileM _ _ _ (mem_trimRight _ _ hc)
    exact allSpOk_collapseAux false _ c hin hsp
  have hnoadj : noAdjSp (normalize_text s) = true := by
    unfold normalize_text
    exact noAdjSp_trimRight _ (noAdjSp_dropWhile _ (noAdjSp_collapseAux _ _))
  have hhead : headNotSp (normalize_text s) := by
    unfold normalize_text
    exact headNotSp_trimRight _ (headNotSp_dropWhile _)
  have hlast : lastNotSp (normalize_text s) := by
    unfold normalize_text
    exact lastNotSp_trimRight _
  have h3 : collapseWs (normalize_text s) = normalize_text s :=
    (collapseAux_eq_self _ hallsp hnoadj).1
  have h4 : (normalize_text s).dropWhile isSpaceM = normalize_text s :=
    dropWhile_eq_self _ hhead
  have h5 : trimRight (normalize_text s) = normalize_text s :=
    trimRight_eq_self _ hlast
  calc normalize_text (normalize_text s)
      = trimRight (List.dropWhile isSpaceM (collapseWs
          (remove_accents ((normalize_text s).map lowerM)))) := rfl
    _ = normalize_text s := by rw [h1, h2, h3, h4, h5]
